import Mathlib

/-!
Verification development for the playlist reconciliation engine of
`spotify-playlist-importer` (a yew/wasm web application).

The development is a shallow embedding of the core component in
`src/import.rs` together with its supporting data types from
`src/playlist_types.rs` and `src/spotify_types.rs`:

* strings are embedded as `List Char` (`Str`);
* `f64` similarity scores are embedded as exact rationals (`ℚ`); the
  `as isize` cast used for the sort key is embedded as truncation toward
  zero (`Int.tdiv`);
* Rust `HashMap`s are embedded as association lists whose iteration order
  is the insertion order (a deterministic refinement of `HashMap`'s
  arbitrary-but-fixed iteration order); `insert` replaces in place,
  `remove` filters, `values` maps the list;
* the yew component is embedded as a state structure `State`, a message
  type `Msg` and a transition function `update : State → Msg → Option State`
  (`none` models a Rust panic via `expect`);
* every outstanding HTTP request held in the component's `fetch_tasks`
  vector is embedded as a `TaskRec` recording whether the request is still
  in flight (`active`) and which logical catalog request it is (`Request`);
  a completed request is marked inactive and delivers the message its
  response callback produces; `FetchService::fetch` is assumed to succeed
  (the browser path), so starting a request always pushes a task;
* the browser-local storage write-through (`storage.store`) is embedded as
  the `stored_mapping` field mirroring `id_mapping` on every store.

External collaborators that are not part of this repository's sources are
modelled from the spec where needed (the `strsim::jaro` string similarity
and the `DefaultHasher` fallback track fingerprint); each such definition
carries a doc comment saying so.
-/

set_option maxRecDepth 4000

namespace SPI

/-- Strings are embedded as lists of characters. -/
abbrev Str := List Char

/-- Rust `char::is_whitespace` (the Unicode `White_Space` property),
used by `str::trim` in `Track::query`. -/
def rustWs (c : Char) : Bool :=
  let n := c.toNat
  (9 ≤ n && n ≤ 13) || n == 32 || n == 133 || n == 160 || n == 5760 ||
  (8192 ≤ n && n ≤ 8202) || n == 8232 || n == 8233 || n == 8239 ||
  n == 8287 || n == 12288

/-- The JavaScript regular-expression class `\s`, used by the
`RegExp::new(r"\s+", "")` replacement in `Track::query` and
`Track::adjusted_query`. -/
def jsWs (c : Char) : Bool :=
  let n := c.toNat
  (9 ≤ n && n ≤ 13) || n == 32 || n == 160 || n == 5760 ||
  (8192 ≤ n && n ≤ 8202) || n == 8232 || n == 8233 || n == 8239 ||
  n == 8287 || n == 12288 || n == 65279

/-- JavaScript regular-expression line terminators, which `.` does not
match in the bracket-stripping pattern of `Track::adjusted_query`. -/
def jsLineTerm (c : Char) : Bool :=
  let n := c.toNat
  n == 10 || n == 13 || n == 8232 || n == 8233

/-- `str::trim` from the left. -/
def trimL (l : Str) : Str := l.dropWhile rustWs

/-- `str::trim` from the right. -/
def trimR (l : Str) : Str := (l.reverse.dropWhile rustWs).reverse

/-- Rust `str::trim`: drop leading and trailing `White_Space`. -/
def rustTrim (l : Str) : Str := trimR (trimL l)

/-- `JsString::replace_by_pattern` with the non-global regex `\s+` and the
replacement `" "`: JavaScript `String.prototype.replace` with a regexp
lacking the `g` flag replaces only the FIRST match, i.e. only the first
maximal run of `\s` characters is collapsed to a single space; later runs
are left untouched. -/
def collapseFirst : Str → Str
  | [] => []
  | c :: cs => if jsWs c then ' ' :: cs.dropWhile jsWs else c :: collapseFirst cs

/-- Helper for the bracket-stripping regex `[\(\[].*[\)\]]`: given the
characters following an opening bracket, return the index of the last
closing bracket that the greedy `.*` can reach, i.e. the last `)` or `]`
inside the maximal line-terminator-free run. -/
def lastCloseIdx (l : Str) : Option Nat :=
  go l 0 none
where
  go : Str → Nat → Option Nat → Option Nat
    | [], _, acc => acc
    | c :: cs, i, acc =>
      if jsLineTerm c then acc
      else go cs (i + 1) (if c = ')' ∨ c = ']' then some i else acc)

/-- `JsString::replace_by_pattern` with the non-global regex
`[\(\[].*[\)\]]` and replacement `""` in `Track::adjusted_query`: the
leftmost match starts at the first opening bracket from which a closing
bracket is reachable, the greedy `.*` extends it to the last reachable
closing bracket, and only that first match is removed. -/
def stripBrackets : Str → Str
  | [] => []
  | c :: cs =>
    if c = '(' ∨ c = '[' then
      match lastCloseIdx cs with
      | some j => cs.drop (j + 1)
      | none => c :: stripBrackets cs
    else c :: stripBrackets cs

/-- `str.split(':')` from `parse_spotify_id`: split a string at every
colon; splitting always yields at least one (possibly empty) piece. -/
def splitColon : Str → List Str
  | [] => [[]]
  | c :: cs =>
    if c = ':' then [] :: splitColon cs
    else
      match splitColon cs with
      | r :: rs => (c :: r) :: rs
      | [] => [[c]]

/-- `fn parse_spotify_id(uri: &str) -> &str` from `src/import.rs`:
`uri.split(':').last().expect("invalid spotify uri")`. `none` models the
`expect` panic (which, as proved below, never fires). -/
def parse_spotify_id (uri : Str) : Option Str :=
  (splitColon uri).getLast?

/-- Convenience total form of `parse_spotify_id`, used where the Rust code
applies it inside an iterator chain; the default is never used because a
split is always non-empty. -/
def parseSpotifyIdT (uri : Str) : Str :=
  (parse_spotify_id uri).getD []

/-- Per-character lowercasing standing in for Rust `str::to_lowercase` in
`Track::similarity` (case folding; the claims under study do not depend on
multi-character Unicode lowercase expansions). -/
def lower (l : Str) : Str := l.map Char.toLower

/-- Search window helper of the Jaro similarity:
`max(a_len, b_len) / 2 - 1` (as in the usual presentation; `Nat`
subtraction truncates at zero exactly like the guarded Rust code). -/
def jaroRange (la lb : Nat) : Nat := max la lb / 2 - 1

/-- Find the first unconsumed index `j` with `lo ≤ j ≤ hi` at which `b`
carries the character `c`; part of the Jaro matching loop. -/
def findMatchIdx (c : Char) : Str → List Bool → Nat → Nat → Nat → Option Nat
  | [], _, _, _, _ => none
  | _ :: _, [], _, _, _ => none
  | x :: xs, u :: us, j, lo, hi =>
    if hi < j then none
    else if lo ≤ j ∧ x = c ∧ u = false then some j
    else findMatchIdx c xs us (j + 1) lo hi

/-- Jaro matching loop: walk the characters of `a`, greedily matching each
against the nearest unconsumed equal character of `b` inside the search
window; returns the matched characters of `a` in order and the consumed
flags of `b`. -/
def jaroLoop : Str → Nat → Str → List Bool → Nat → (Str × List Bool)
  | [], _, _, consumed, _ => ([], consumed)
  | c :: cs, i, b, consumed, r =>
    match findMatchIdx c b consumed 0 (i - r) (i + r) with
    | some j =>
      let rest := jaroLoop cs (i + 1) b (consumed.set j true) r
      (c :: rest.1, rest.2)
    | none => jaroLoop cs (i + 1) b consumed r

/-- Modelled from the spec: the Jaro string similarity used by
`Track::similarity` ("case-folded Jaro string similarity (range [0,1])").
The `strsim` crate providing it is an external dependency, not part of
this repository's sources; this is the textbook algorithm over exact
rationals: matches inside the usual search window, transpositions counted
as half the number of differing matched positions, result
`(m/|a| + m/|b| + (m - t)/m) / 3`, with the conventional special cases for
empty strings. -/
def jaro (a b : Str) : ℚ :=
  if a.length = 0 ∧ b.length = 0 then 1
  else if a.length = 0 ∨ b.length = 0 then 0
  else
    let r := jaroRange a.length b.length
    let res := jaroLoop a 0 b (b.map fun _ => false) r
    let m : Nat := res.1.length
    if m = 0 then 0
    else
      let mb : Str := (b.zip res.2).filterMap fun p => if p.2 then some p.1 else none
      let t2 : Nat := (res.1.zip mb).countP fun p => p.1 != p.2
      ((m : ℚ) / a.length + (m : ℚ) / b.length + ((m : ℚ) - (t2 : ℚ) / 2) / m) / 3

/-- `Track` from `src/playlist_types.rs`. All fields are optional exactly
as in the source; `annot` embeds the source field `annotation` (renamed
here, content and position preserved). Durations are integer milliseconds
(`i32` embedded as `ℤ`). -/
structure Track where
  location : Option Str := none
  identifier : Option Str := none
  title : Option Str := none
  artist : Option Str := none
  annot : Option Str := none
  info : Option Str := none
  album : Option Str := none
  track_number : Option Int := none
  duration : Option Int := none
deriving DecidableEq, Repr

/-- Modelled from the spec: the `DefaultHasher` fallback of `Track::id`
("a stable hash over all fields (order-sensitive, field-by-field),
rendered as a string"). The standard-library hasher's exact output is not part
of this repository's sources; it is embedded as a deterministic
field-by-field fingerprint, which is what every claim under study relies
on (determinism, order sensitivity). -/
def fingerprint (t : Track) : Str :=
  let encS : Option Str → Str := fun o =>
    match o with
    | none => ['N']
    | some s => 'S' :: s ++ ['|']
  let encI : Option Int → Str := fun o =>
    match o with
    | none => ['N']
    | some i => 'S' :: (toString i).data ++ ['|']
  encS t.location ++ encS t.identifier ++ encS t.title ++ encS t.artist ++
  encS t.annot ++ encS t.info ++ encS t.album ++ encI t.track_number ++
  encI t.duration

/-- `Track::id`: the `identifier` field if present, else the hash
fingerprint of all fields rendered as a string. -/
def Track.id (t : Track) : Str :=
  t.identifier.getD (fingerprint t)

/-- `Track::query`: `format!("{} {}", artist, title)` over the (possibly
empty) fields, `str::trim`, then the non-global JS replacement of `\s+`
by a single space. -/
def Track.query (t : Track) : Str :=
  collapseFirst (rustTrim (t.artist.getD [] ++ ' ' :: t.title.getD []))

/-- `Track::adjusted_query`: strip the greedy bracketed span independently
from artist and from title, then proceed exactly as `query`. -/
def Track.adjusted_query (t : Track) : Str :=
  collapseFirst (rustTrim
    (stripBrackets (t.artist.getD []) ++ ' ' :: stripBrackets (t.title.getD [])))

/-- `Track::similarity` from `src/playlist_types.rs`, over exact rationals:
case-folded Jaro similarities of artist, album and title (missing fields
as empty strings), a squared duration-similarity term over integer
milliseconds (missing as 0), combined with weights 2/1/2/5 and divided
by 10. (In ℚ a division by zero yields 0 where `f64` would yield NaN;
theorems about the formula therefore carry the hypothesis that the
duration sum is non-zero.) -/
def Track.similarity (t other : Track) : ℚ :=
  let artist_a := lower (t.artist.getD [])
  let artist_b := lower (other.artist.getD [])
  let album_a := lower (t.album.getD [])
  let album_b := lower (other.album.getD [])
  let title_a := lower (t.title.getD [])
  let title_b := lower (other.title.getD [])
  let duration_a : ℤ := t.duration.getD 0
  let duration_b : ℤ := other.duration.getD 0
  let duration_similarity : ℚ :=
    (1 - ((2 * |duration_a - duration_b| : ℤ) : ℚ) / ((duration_a + duration_b : ℤ) : ℚ)) ^ 2
  (jaro artist_a artist_b * 2 + jaro album_a album_b + jaro title_a title_b * 2 +
    duration_similarity * 5) / 10

/-! ### Association lists: the embedding of `std::collections::HashMap`

Iteration order is insertion order — a deterministic refinement of the
`HashMap` iteration order (arbitrary but fixed while the map is not
mutated). `alistInsert` replaces the value in place when the key exists
(like `HashMap::insert`), `alistRemove` filters the entry out. -/

/-- Lookup: value of the first entry carrying the key. -/
def alistGet (l : List (Str × α)) (k : Str) : Option α :=
  (l.find? fun p => p.1 == k).map (·.2)

/-- `HashMap::contains_key`. -/
def alistContains (l : List (Str × α)) (k : Str) : Bool :=
  (alistGet l k).isSome

/-- `HashMap::insert` (upsert: replace in place, else append). -/
def alistInsert (l : List (Str × α)) (k : Str) (v : α) : List (Str × α) :=
  if alistContains l k then l.map fun p => if p.1 == k then (k, v) else p
  else l ++ [(k, v)]

/-- `HashMap::remove`. -/
def alistRemove (l : List (Str × α)) (k : Str) : List (Str × α) :=
  l.filter fun p => p.1 != k

/-! ### The sort key of the match cache

`out_tracks.sort_by_key(|(similarity, _)| -(similarity * 1_000.0) as isize)`
from `Import::insert_out_track`: the `f64 → isize` cast truncates toward
zero, embedded by `Int.tdiv` on the rational's numerator and denominator. -/

/-- Truncation toward zero of a rational, the `as isize` cast. -/
def truncQ (q : ℚ) : ℤ := q.num.tdiv q.den

/-- The sort key `-(similarity * 1_000.0) as isize` of a match entry. -/
def sortKey (e : ℚ × Track) : ℤ := truncQ (-(e.1 * 1000))

/-- One step of the stable sort: insert an element after every element of
no greater key (insertion after equal keys keeps the later-appended
element later — the stability of Rust's `sort_by_key`). -/
def sortIns (x : ℚ × Track) : List (ℚ × Track) → List (ℚ × Track)
  | [] => [x]
  | y :: ys => if sortKey y ≤ sortKey x then y :: sortIns x ys else x :: y :: ys

/-- `Vec::sort_by_key` (a stable sort, ascending in the key): embedded as
a stable insertion sort. Any two stable sorts agree extensionally, so this
is a faithful embedding of the source's stable merge sort. -/
def sort_by_key (l : List (ℚ × Track)) : List (ℚ × Track) :=
  l.foldl (fun acc x => sortIns x acc) []

/-! ### The component state, messages and catalog requests -/

/-- `FetchInitiator` from `src/import.rs`. -/
inductive FetchInitiator where
  | auto (n : Nat)
  | manual
deriving DecidableEq, Repr

/-- `SpotifyPlaylist` from `src/spotify_types.rs` (owner flattened to its
id, which is all the code reads). -/
structure SpotifyPlaylist where
  id : Str
  name : Str
  owner_id : Str
  collaborative : Bool
deriving DecidableEq, Repr

/-- `SpotifyTrack` from `src/spotify_types.rs` (album and artists
flattened to their names). -/
structure SpotifyTrack where
  uri : Str
  album_name : Str
  artist_names : List Str
  name : Str
  track_number : Int
  duration_ms : Int
deriving DecidableEq, Repr

/-- `impl From<SpotifyTrack> for Track`: identifier from the uri, artist
names joined with a comma and a space. -/
def spotifyToTrack (f : SpotifyTrack) : Track :=
  { identifier := some f.uri
    title := some f.name
    track_number := some f.track_number
    duration := some f.duration_ms
    artist := some (List.intercalate [',', ' '] f.artist_names)
    album := some f.album_name }

/-- The logical catalog requests the component issues (the five request
builders of `src/import.rs`). A `getTracks` request carries the parsed
page ids and the output-id → input-id lookup its response callback
captured. -/
inductive Request where
  | getPlaylists (user_id : Str)
  | search (input_id : Str) (query : Str) (ini : FetchInitiator)
  | getTracks (ids : List Str) (id_lookup : List (Str × Str))
  | addItems (playlist_id : Str) (uris : List Str)
  | createPlaylist (user_id : Str) (name : Str) (isPublic : Bool)
deriving DecidableEq, Repr

/-- An entry of the component's `fetch_tasks: Vec<FetchTask>`: whether the
request is still in flight (`FetchTask::is_active`) and which request it
is. -/
structure TaskRec where
  active : Bool
  req : Request
deriving DecidableEq, Repr

/-- `Msg` from `src/import.rs`. `InPlaylistSelected`/`InPlaylistLoaded`
are fused into one message carrying the already-parsed track list (the
file reader and the XML parser are external collaborators; a parse
failure panics and no claim concerns it). `OutPlaylistSelected` carries
the result of the browser prompt as a second component (the prompt is an
external input read inside the handler). -/
inductive Msg where
  | OutPlaylistsLoaded (playlists : List SpotifyPlaylist)
  | OutPlaylistSelected (playlist_id : Str) (prompt : Option Str)
  | OutPlaylistCreated (playlist : SpotifyPlaylist)
  | InPlaylistLoaded (tracks : List Track)
  | SetIdMapping (input_id : Str) (output_id : Option Str)
  | OutTracksFound (input_id : Str) (new_out_tracks : List Track) (ini : FetchInitiator)
  | RemainingOutTracksFound (tracks : List (Str × Track))
  | QueryOutTrack (input_id : Str) (query : Str)
  | ExportUnmatched
  | ImportMatched
  | ImportMatchedDone
  | SetError (error_message : Str)
  | Noop
deriving DecidableEq, Repr

/-- `State` from `src/import.rs`, plus: `user_id` (the relevant part of
the component's props), `stored_mapping` (the browser-local storage the
id mapping is written through to) and `fetch_tasks` (held on the
component itself in the source). -/
structure State where
  user_id : Str
  in_tracks : List Track
  out_tracks : List (Str × List (ℚ × Track))
  id_mapping : List (Str × Str)
  stored_mapping : List (Str × Str)
  out_playlists : List SpotifyPlaylist
  selected_out_playlist : Option Str
  fetch_out_tracks_queue : List (Str × Str × FetchInitiator)
  fetch_out_tracks_remaining : List (Str × Str)
  fetch_out_tracks_remaining_batch_index : Nat
  import_matched_batch_index : Nat
  import_matched_done : Bool
  error_message : Option Str
  fetch_tasks : List TaskRec
deriving DecidableEq, Repr

/-! ### The request builders of `impl Import` -/

/-- `Import::get_playlists` (only called from `create`). -/
def get_playlists (s : State) : State :=
  { s with fetch_tasks := s.fetch_tasks ++ [⟨true, .getPlaylists s.user_id⟩] }

/-- `Import::fetch_out_track`: issue one catalog search. -/
def fetch_out_track (s : State) (input_id query : Str) (ini : FetchInitiator) : State :=
  { s with fetch_tasks := s.fetch_tasks ++ [⟨true, .search input_id query ini⟩] }

/-- `Import::fetch_remaining_out_tracks`: issue the bulk lookup for the
current 50-entry page of `fetch_out_tracks_remaining` (the page index is
read, not advanced, here). The ids are the parsed spotify ids of the
page's values; the callback's lookup table is the page collected into a
`HashMap` keyed by output id (later duplicates overwrite). -/
def fetch_remaining_out_tracks (s : State) : State :=
  let page := (s.fetch_out_tracks_remaining.drop
    (s.fetch_out_tracks_remaining_batch_index * 50)).take 50
  let spotify_ids := page.map fun p => parseSpotifyIdT p.2
  let id_lookup := page.foldl (fun acc p => alistInsert acc p.2 p.1) []
  { s with fetch_tasks := s.fetch_tasks ++ [⟨true, .getTracks spotify_ids id_lookup⟩] }

/-- The `while self.fetch_tasks.len() < 1` loop of
`Import::fetch_next_out_track`: pop queued search tasks and issue them
until a task is in flight or the queue is empty (`FetchService::fetch` is
assumed to succeed, so each issue pushes one task and the loop body runs
at most once). -/
def drainQueue (tasks : List TaskRec) :
    List (Str × Str × FetchInitiator) → List TaskRec × List (Str × Str × FetchInitiator)
  | [] => (tasks, [])
  | (input_id, query, ini) :: rest =>
    if tasks.length < 1 then
      drainQueue (tasks ++ [⟨true, .search input_id query ini⟩]) rest
    else (tasks, (input_id, query, ini) :: rest)

/-- `Import::fetch_next_out_track`: retain only active tasks, drain the
search queue (one call in flight), then — only if nothing is in flight —
issue the next bulk-lookup page if the page cursor has not reached
`ceil(remaining / 50)`, advancing the cursor. -/
def fetch_next_out_track (s : State) : State :=
  let s := { s with fetch_tasks := s.fetch_tasks.filter (·.active) }
  let dq := drainQueue s.fetch_tasks s.fetch_out_tracks_queue
  let s := { s with fetch_tasks := dq.1, fetch_out_tracks_queue := dq.2 }
  let batch_count := (s.fetch_out_tracks_remaining.length + 49) / 50
  if s.fetch_tasks.length = 0 ∧
      s.fetch_out_tracks_remaining_batch_index < batch_count then
    let s := fetch_remaining_out_tracks s
    { s with fetch_out_tracks_remaining_batch_index :=
        s.fetch_out_tracks_remaining_batch_index + 1 }
  else s

/-- `Import::add_to_playlist`: one "add items" call for the current
50-track page of the INPUT track list, filtered down to the tracks that
currently have a mapping (the page index is read, not advanced, here). -/
def add_to_playlist (s : State) (playlist_id : Str) : State :=
  let uris := ((s.in_tracks.drop (s.import_matched_batch_index * 50)).take 50).filterMap
    fun t => alistGet s.id_mapping t.id
  { s with fetch_tasks := s.fetch_tasks ++ [⟨true, .addItems playlist_id uris⟩] }

/-- `Import::add_next_to_playlist`: issue the next page unless the page
index has reached `ceil(in_tracks / 50)`; advance the index after. -/
def add_next_to_playlist (s : State) (playlist_id : Str) : State :=
  let batch_count := (s.in_tracks.length + 49) / 50
  if s.import_matched_batch_index < batch_count then
    let s := add_to_playlist s playlist_id
    { s with import_matched_batch_index := s.import_matched_batch_index + 1 }
  else s

/-- `Import::create_playlist` (`public: false` as in the source). -/
def create_playlist (s : State) (name : Str) : State :=
  { s with fetch_tasks := s.fetch_tasks ++ [⟨true, .createPlaylist s.user_id name false⟩] }

/-- `Import::insert_out_track`: score the new candidates against the input
track found by identity (`expect` panic — `none` — if the id is unknown),
append them to the id's match list, re-sort it stably by the truncated
key, set the default mapping (with write-through) if none exists, and
drop the id from the remainder set when the updated list witnesses the
mapped output id. -/
def insert_out_track (s : State) (input_id : Str) (new_out_tracks : List Track) :
    Option State :=
  match s.in_tracks.find? fun t => t.id == input_id with
  | none => none
  | some in_track =>
    let scored := new_out_tracks.map fun ot => (in_track.similarity ot, ot)
    let old := (alistGet s.out_tracks input_id).getD []
    let merged := sort_by_key (old ++ scored)
    let s := { s with out_tracks := alistInsert s.out_tracks input_id merged }
    let withMapping : Option State :=
      if alistContains s.id_mapping input_id then some s
      else
        match merged with
        | [] => none
        | e :: _ =>
          let m := alistInsert s.id_mapping input_id e.2.id
          some { s with id_mapping := m, stored_mapping := m }
    withMapping.map fun s =>
      match alistGet s.fetch_out_tracks_remaining input_id with
      | some output_id =>
        if merged.any fun e => e.2.id == output_id then
          { s with fetch_out_tracks_remaining :=
              alistRemove s.fetch_out_tracks_remaining input_id }
        else s
      | none => s

/-- The remainder-set rebuild of the `InPlaylistLoaded` handler: for each
input track with a stored mapping whose output id is not a key of
`out_tracks`, record `input_id → output_id` (the source checks
`out_tracks.contains_key(output_id)`, i.e. the OUTPUT id against the map
keyed by input ids, and this is embedded as written). -/
def buildRemaining (s : State) : List (Str × Str) :=
  s.in_tracks.foldl
    (fun acc t =>
      match alistGet s.id_mapping t.id with
      | some output_id =>
        if alistContains s.out_tracks output_id then acc
        else alistInsert acc t.id output_id
      | none => acc)
    []

/-- `Component::update` for `Import` from `src/import.rs`. `none` embeds a
Rust panic (an `expect` firing). -/
def update (s : State) (msg : Msg) : Option State :=
  match msg with
  | .OutPlaylistsLoaded playlists =>
    some { s with error_message := none, out_playlists := playlists }
  | .OutPlaylistSelected playlist_id prompt =>
    if playlist_id = ['c', 'r', 'e', 'a', 't', 'e'] then
      match prompt with
      | some name => some (create_playlist s name)
      | none => some s
    else if playlist_id ≠ [] then
      some { s with selected_out_playlist := some playlist_id }
    else
      some { s with selected_out_playlist := none }
  | .OutPlaylistCreated playlist =>
    some { s with selected_out_playlist := some playlist.id,
                  out_playlists := s.out_playlists ++ [playlist] }
  | .InPlaylistLoaded tracks =>
    let s := { s with in_tracks := tracks }
    let seeded := tracks.map fun t => (t.id, t.query, FetchInitiator.auto 1)
    let s := { s with fetch_out_tracks_queue := s.fetch_out_tracks_queue ++ seeded }
    let s := { s with fetch_out_tracks_remaining := buildRemaining s,
                      fetch_out_tracks_remaining_batch_index := 0 }
    some (fetch_next_out_track s)
  | .SetIdMapping input_id (some output_id) =>
    let m := alistInsert s.id_mapping input_id output_id
    some { s with id_mapping := m, stored_mapping := m }
  | .SetIdMapping input_id none =>
    let m := alistRemove s.id_mapping input_id
    some { s with id_mapping := m, stored_mapping := m }
  | .QueryOutTrack input_id query =>
    some (fetch_next_out_track { s with fetch_out_tracks_queue :=
      s.fetch_out_tracks_queue ++ [(input_id, query, .manual)] })
  | .OutTracksFound input_id new_out_tracks ini =>
    let s := { s with error_message := none }
    if new_out_tracks.length > 0 then
      (insert_out_track s input_id new_out_tracks).map fetch_next_out_track
    else
      match ini with
      | .auto fetch_try =>
        if fetch_try = 1 then
          match s.in_tracks.find? fun t => t.id == input_id with
          | none => none
          | some in_track =>
            let query := in_track.query
            let adjusted_query := in_track.adjusted_query
            if adjusted_query ≠ query then
              some (fetch_next_out_track { s with fetch_out_tracks_queue :=
                s.fetch_out_tracks_queue ++
                  [(in_track.id, adjusted_query, .auto (fetch_try + 1))] })
            else some (fetch_next_out_track s)
        else some (fetch_next_out_track s)
      | .manual => some (fetch_next_out_track s)
  | .RemainingOutTracksFound tracks =>
    let s := { s with error_message := none }
    (tracks.foldlM (fun st p => insert_out_track st p.1 [p.2]) s).map
      fetch_next_out_track
  | .ExportUnmatched => some s
  | .ImportMatched =>
    match s.selected_out_playlist with
    | some playlist_id =>
      some (add_next_to_playlist
        { s with import_matched_batch_index := 0, import_matched_done := false }
        playlist_id)
    | none => some s
  | .ImportMatchedDone =>
    some { s with error_message := none, import_matched_done := true }
  | .SetError error_message =>
    some { s with error_message := some error_message }
  | .Noop => some s

/-! ### Response callbacks, events and reachability -/

/-- The operation-naming one-line error text each response callback
surfaces on a non-success status or transport failure
(`"Request failed: ..."`). -/
def opErrorText : Request → Str
  | .getPlaylists _ => ("Request failed: get playlists").data
  | .search _ _ _ => ("Request failed: search track").data
  | .getTracks _ _ => ("Request failed: get tracks").data
  | .addItems _ _ => ("Request failed: add to playlist").data
  | .createPlaylist _ _ _ => ("Request failed: create playlist").data

/-- The bulk-lookup response callback of `fetch_remaining_out_tracks`:
convert each returned catalog track and resolve its input id through the
captured lookup table; an unknown output id is an `expect` panic
(`none`). -/
def remainingCallback (id_lookup : List (Str × Str)) (resp : List SpotifyTrack) :
    Option Msg :=
  (resp.mapM fun st =>
      let out_track := spotifyToTrack st
      (alistGet id_lookup out_track.id).map fun input_id => (input_id, out_track)).map
    Msg.RemainingOutTracksFound

/-- Which message a completed catalog request can deliver to `update`:
its callback's success message for an arbitrary catalog response, or the
operation's error text. This is the interface boundary to the remote
catalog — responses are arbitrary data of the right shape. -/
inductive Completes : Request → Msg → Prop
  | getPlaylistsOk (user_id : Str) (resp : List SpotifyPlaylist) :
      Completes (.getPlaylists user_id)
        (.OutPlaylistsLoaded (resp.filter fun p => p.owner_id == user_id || p.collaborative))
  | searchOk (input_id query : Str) (ini : FetchInitiator) (resp : List SpotifyTrack) :
      Completes (.search input_id query ini)
        (.OutTracksFound input_id (resp.map spotifyToTrack) ini)
  | getTracksOk (ids : List Str) (id_lookup : List (Str × Str))
      (resp : List SpotifyTrack) (msg : Msg)
      (h : remainingCallback id_lookup resp = some msg) :
      Completes (.getTracks ids id_lookup) msg
  | addItemsOk (playlist_id : Str) (uris : List Str) :
      Completes (.addItems playlist_id uris) .ImportMatchedDone
  | createPlaylistOk (user_id name : Str) (isPublic : Bool) (resp : SpotifyPlaylist) :
      Completes (.createPlaylist user_id name isPublic) (.OutPlaylistCreated resp)
  | err (req : Request) : Completes req (.SetError (opErrorText req))

/-- The user intents the rendered view can emit (its callbacks all
dispatch one of these messages; `loadPlaylist` stands for the
file-selected → file-read → parsed chain). -/
def userMsg : Msg → Prop
  | .OutPlaylistSelected _ _ => True
  | .InPlaylistLoaded _ => True
  | .SetIdMapping _ _ => True
  | .QueryOutTrack _ _ => True
  | .ExportUnmatched => True
  | .ImportMatched => True
  | .Noop => True
  | _ => False

/-- One scheduling step of the single-threaded component: either the user
emits an intent, or one in-flight request completes — it is marked
inactive (its `FetchTask::is_active` turns false) and its callback's
message is processed by `update`. -/
inductive Step (s : State) : State → Prop
  | user (msg : Msg) (s' : State) (hu : userMsg msg) (h : update s msg = some s') :
      Step s s'
  | response (i : Nat) (t : TaskRec) (msg : Msg) (s' : State)
      (hget : s.fetch_tasks.get? i = some t) (hact : t.active = true)
      (hc : Completes t.req msg)
      (h : update { s with fetch_tasks := s.fetch_tasks.set i { t with active := false } }
            msg = some s') :
      Step s s'

/-- `Component::create`: restore the persisted id mapping, start from the
empty state and issue the initial `get_playlists` request. -/
def initState (user_id : Str) (restored : List (Str × Str)) : State :=
  get_playlists
    { user_id := user_id
      in_tracks := []
      out_tracks := []
      id_mapping := restored
      stored_mapping := restored
      out_playlists := []
      selected_out_playlist := none
      fetch_out_tracks_queue := []
      fetch_out_tracks_remaining := []
      fetch_out_tracks_remaining_batch_index := 0
      import_matched_batch_index := 0
      import_matched_done := false
      error_message := none
      fetch_tasks := [] }

/-- The states the component can reach from creation. -/
inductive Reachable : State → Prop
  | init (user_id : Str) (restored : List (Str × Str)) :
      Reachable (initState user_id restored)
  | step {s s' : State} : Reachable s → Step s s' → Reachable s'

/-- The fetch orchestrator's own calls: search and bulk lookup (the two
kinds issued through `fetch_next_out_track`). -/
def isOrchReq : Request → Bool
  | .search _ _ _ => true
  | .getTracks _ _ => true
  | _ => false

/-- Number of in-flight orchestrator requests. -/
def orchCount (s : State) : Nat :=
  s.fetch_tasks.countP fun t => t.active && isOrchReq t.req

/-- Number of in-flight requests of any kind. -/
def activeCount (s : State) : Nat :=
  s.fetch_tasks.countP (·.active)

/-! ### Facts about `parse_spotify_id` (claim C10) -/

/-- Specification-side description of "the substring after the last `:`
(the whole string when no `:` occurs)". -/
def afterLastColon : Str → Str
  | [] => []
  | c :: cs => if ':' ∈ cs then afterLastColon cs else if c = ':' then cs else c :: cs

/-! ### Observers and concrete scenarios used by individual claims -/

/-- The logical requests currently in flight. -/
def activeReqs (s : State) : List Request :=
  (s.fetch_tasks.filter (·.active)).map (·.req)

/-- The id pages and lookup tables of the in-flight bulk lookups. -/
def bulkPages (s : State) : List (List Str × List (Str × Str)) :=
  (activeReqs s).filterMap fun r =>
    match r with
    | .getTracks ids lk => some (ids, lk)
    | _ => none

/-- The uri pages of the in-flight add-items calls. -/
def addItemPages (s : State) : List (List Str) :=
  (activeReqs s).filterMap fun r =>
    match r with
    | .addItems _ uris => some uris
    | _ => none

/-- A component state with nothing loaded, nothing queued and nothing in
flight (scenario base). -/
def baseState : State :=
  { user_id := ['u']
    in_tracks := []
    out_tracks := []
    id_mapping := []
    stored_mapping := []
    out_playlists := []
    selected_out_playlist := none
    fetch_out_tracks_queue := []
    fetch_out_tracks_remaining := []
    fetch_out_tracks_remaining_batch_index := 0
    import_matched_batch_index := 0
    import_matched_done := false
    error_message := none
    fetch_tasks := [] }

/-- C1 scenario: the state after the user picks "Create new playlist..."
while the initial `get_playlists` request is still in flight. -/
def c1_bad : State :=
  (update (initState ['u'] []) (.OutPlaylistSelected ("create").data (some ['n']))).getD
    (initState ['u'] [])

/-- C2 scenarios: an input track whose adjusted query differs from its
query ("A (x)" / "t"). -/
def c2w_track : Track :=
  { identifier := some ['i'], artist := some ('A' :: ' ' :: '(' :: 'x' :: ')' :: []),
    title := some ['t'] }

/-- C2 scenario state: that track loaded, nothing else pending. -/
def c2w_s : State := { baseState with in_tracks := [c2w_track] }

/-- C3 scenario: input-track identity of entry `k` of the remainder set. -/
def c3_inId (k : Nat) : Str := [Char.ofNat (1000 + k)]

/-- C3 scenario: mapped catalog id of entry `k` of the remainder set. -/
def c3_outId (k : Nat) : Str := [Char.ofNat (2000 + k)]

/-- C3 scenario: a 120-entry remainder set. -/
def c3_entries : List (Str × Str) := (List.range 120).map fun k => (c3_inId k, c3_outId k)

/-- C3 scenario: 120 input tracks, every one already mapped, all 120
mapped candidates still unfetched, search queue empty, nothing in
flight. -/
def c3_s0 : State :=
  { baseState with
    in_tracks := (List.range 120).map fun k => { identifier := some (c3_inId k) }
    id_mapping := c3_entries
    stored_mapping := c3_entries
    fetch_out_tracks_remaining := c3_entries }

/-- C3 scenario: the catalog answers a bulk lookup with exactly the
requested tracks. -/
def c3_resp (ids : List Str) : List SpotifyTrack :=
  ids.map fun i =>
    { uri := i, album_name := [], artist_names := [], name := [],
      track_number := 0, duration_ms := 0 }

/-- C3 scenario: complete the single in-flight bulk lookup successfully
(mark it inactive, run its callback on the full response, process the
message). -/
def c3_respond (s : State) : Option State :=
  match bulkPages s with
  | [(ids, lk)] =>
    (remainingCallback lk (c3_resp ids)).bind
      (update { s with fetch_tasks := s.fetch_tasks.map fun t => { t with active := false } })
  | _ => none

/-- C3 scenario: the orchestrator tick that issues the first page. -/
def c3_s1 : State := fetch_next_out_track c3_s0

/-- C3 scenario: after the first page's response. -/
def c3_o2 : Option State := c3_respond c3_s1

/-- C3 scenario: after the second page's response. -/
def c3_o3 : Option State := c3_o2.bind c3_respond

/-- C4 scenario: input-track identity `k`. -/
def c4_inId (k : Nat) : Str := [Char.ofNat (3000 + k)]

/-- C4 scenario: mapped catalog uri of input track `k`. -/
def c4_outId (k : Nat) : Str := [Char.ofNat (4000 + k)]

/-- C4 scenario: 51 input tracks, all mapped, a target playlist
selected. -/
def c4_s0 : State :=
  { baseState with
    in_tracks := (List.range 51).map fun k => { identifier := some (c4_inId k) }
    id_mapping := (List.range 51).map fun k => (c4_inId k, c4_outId k)
    stored_mapping := (List.range 51).map fun k => (c4_inId k, c4_outId k)
    selected_out_playlist := some ['p'] }

/-- C4 scenario: the user triggers the import. -/
def c4_o1 : Option State := update c4_s0 .ImportMatched

/-- C4 scenario: the single add-items call completes successfully. -/
def c4_o2 : Option State :=
  c4_o1.bind fun s =>
    update { s with fetch_tasks := s.fetch_tasks.map fun t => { t with active := false } }
      .ImportMatchedDone

/-- C5 scenario: an input track with no mapping yet. -/
def c5w_s : State := { baseState with in_tracks := [{ identifier := some ['i'] }] }

/-- C5 scenario: a candidate returned for it. -/
def c5w_cand : Track := { identifier := some ['o'] }

/-- C5 scenario: the state after the first successful insert. -/
def c5w_s1 : State := (insert_out_track c5w_s ['i'] [c5w_cand]).getD c5w_s

/-- C6 scenario: the loaded input track (artist `a`, title `t`, album
`abcdefg`, duration 100 ms). -/
def c6_in : Track :=
  { identifier := some ['i'], artist := some ['a'], title := some ['t'],
    album := some ('a' :: 'b' :: 'c' :: 'd' :: 'e' :: 'f' :: 'g' :: []),
    duration := some 100 }

/-- C6 scenario: candidate whose album `abcdegf` (one transposition)
gives album-jaro 20/21 and similarity 209/210 ≈ 0.99524 — the LOWER
score, sort key −995. -/
def c6_low : Track :=
  { identifier := some ['l'], artist := some ['a'], title := some ['t'],
    album := some ('a' :: 'b' :: 'c' :: 'd' :: 'e' :: 'g' :: 'f' :: []),
    duration := some 100 }

/-- C6 scenario: candidate whose album `abcdefgw` (one extra character)
gives album-jaro 23/24 and similarity 239/240 ≈ 0.99583 — the HIGHER
score, with the SAME sort key −995. -/
def c6_high : Track :=
  { identifier := some ['h'], artist := some ['a'], title := some ['t'],
    album := some ('a' :: 'b' :: 'c' :: 'd' :: 'e' :: 'f' :: 'g' :: 'w' :: []),
    duration := some 100 }

/-- C6 scenario state. -/
def c6_s0 : State := { baseState with in_tracks := [c6_in] }

/-- C6 scenario: the state after inserting the single candidate `c6_low`
(used to instantiate the amended ordering theorem). -/
def c6w_s1 : State := (insert_out_track c6_s0 ['i'] [c6_low]).getD c6_s0

/-- C7 scenario tracks (non-zero duration sum). -/
def c7w_a : Track := { artist := some ['x'], duration := some 100 }

/-- C7 scenario: the candidate side. -/
def c7w_b : Track := { title := some ['y'], duration := some 50 }

/-- Whether neither end of a string is whitespace (in the Rust or the
JavaScript sense). -/
def edgeOk (l : Str) : Bool :=
  (match l.head? with
   | none => true
   | some c => !(rustWs c || jsWs c)) &&
  (match l.getLast? with
   | none => true
   | some c => !(rustWs c || jsWs c))

/-- Whether a string is free of two adjacent whitespace characters. -/
def noDoubleWs : Str → Bool
  | a :: b :: rest => !((rustWs a || jsWs a) && (rustWs b || jsWs b)) && noDoubleWs (b :: rest)
  | _ => true

/-- C8 scenario: a track whose title contains an interior double space
("A" / "B␣␣C"). -/
def c8x_track : Track :=
  { artist := some ['A'], title := some ('B' :: ' ' :: ' ' :: 'C' :: []) }

/-- C8 scenario: a FEFF-free track with a multi-space run in the artist
field. -/
def c8w_track : Track :=
  { artist := some ('A' :: ' ' :: ' ' :: 'B' :: []), title := some ['T'] }

/-- C9 scenario: an error from a failed `get_playlists` call is on
display. -/
def c9x_s : State :=
  { baseState with error_message := some (opErrorText (.getPlaylists ['u'])) }

/-- C9 scenario: the playlist created afterwards. -/
def c9x_p : SpotifyPlaylist :=
  { id := ['p'], name := ['n'], owner_id := ['u'], collaborative := false }

theorem getLast?_cons_ne {α : Type _} (a : α) (l : List α) (h : l ≠ []) :
    (a :: l).getLast? = l.getLast? := by
  cases l with
  | nil => exact absurd rfl h
  | cons b t => exact List.getLast?_cons_cons

theorem splitColon_ne_nil (l : Str) : splitColon l ≠ [] := by
  cases l with
  | nil => simp [splitColon]
  | cons c cs =>
    simp only [splitColon]
    split
    · simp
    · split <;> simp

theorem splitColon_of_not_mem (l : Str) (h : ':' ∉ l) : splitColon l = [l] := by
  induction l with
  | nil => rfl
  | cons c cs ih =>
    simp only [List.mem_cons, not_or] at h
    simp only [splitColon]
    rw [if_neg (fun e => h.1 e.symm), ih h.2]

theorem afterLastColon_of_not_mem (l : Str) (h : ':' ∉ l) : afterLastColon l = l := by
  cases l with
  | nil => rfl
  | cons c cs =>
    simp only [List.mem_cons, not_or] at h
    simp only [afterLastColon]
    rw [if_neg h.2, if_neg (fun e => h.1 e.symm)]

theorem splitColon_singleton (l r : Str) (h : splitColon l = [r]) :
    r = l ∧ ':' ∉ l := by
  induction l generalizing r with
  | nil =>
    simp only [splitColon, List.cons.injEq] at h
    exact ⟨h.1.symm, by simp⟩
  | cons c cs ih =>
    simp only [splitColon] at h
    split at h
    · rename_i hc
      simp only [List.cons.injEq] at h
      exact absurd h.2 (splitColon_ne_nil cs)
    · rename_i hc
      rcases hsp : splitColon cs with _ | ⟨r', rs⟩
      · exact absurd hsp (splitColon_ne_nil cs)
      · rw [hsp] at h
        simp only [List.cons.injEq] at h
        obtain ⟨h1, h2⟩ := h
        subst h2
        obtain ⟨hr, hm⟩ := ih r' hsp
        subst hr
        refine ⟨h1.symm, ?_⟩
        simp only [List.mem_cons, not_or]
        exact ⟨fun e => hc e.symm, hm⟩

theorem getLast?_splitColon (l : Str) :
    (splitColon l).getLast? = some (afterLastColon l) := by
  induction l with
  | nil => rfl
  | cons c cs ih =>
    simp only [splitColon]
    by_cases hc : c = ':'
    · rw [if_pos hc, getLast?_cons_ne _ _ (splitColon_ne_nil cs), ih]
      simp only [afterLastColon]
      by_cases hm : ':' ∈ cs
      · rw [if_pos hm]
      · rw [if_neg hm, if_pos hc, afterLastColon_of_not_mem cs hm]
    · rw [if_neg hc]
      rcases hsp : splitColon cs with _ | ⟨r, rs⟩
      · exact absurd hsp (splitColon_ne_nil cs)
      · rcases rs with _ | ⟨r2, rs2⟩
        · obtain ⟨hr, hm⟩ := splitColon_singleton cs r hsp
          show ((c :: r) :: ([] : List Str)).getLast? = some (afterLastColon (c :: cs))
          rw [List.getLast?_singleton, hr]
          simp only [afterLastColon]
          rw [if_neg hm, if_neg hc]
        · have hm : ':' ∈ cs := by
            by_contra hm
            rw [splitColon_of_not_mem cs hm] at hsp
            simp at hsp
          show ((c :: r) :: r2 :: rs2).getLast? = some (afterLastColon (c :: cs))
          rw [hsp] at ih
          have h2 : (r :: r2 :: rs2).getLast? = (r2 :: rs2).getLast? :=
            List.getLast?_cons_cons
          rw [List.getLast?_cons_cons, ← h2, ih]
          simp only [afterLastColon]
          rw [if_pos hm]

/-! ### Association-list lemmas -/

theorem alistGet_cons_of_pos {α : Type _} (p : Str × α) (l : List (Str × α)) (k : Str)
    (h : (p.1 == k) = true) : alistGet (p :: l) k = some p.2 := by
  unfold alistGet
  rw [List.find?_cons_of_pos (p := fun q => q.1 == k) l h]
  rfl

theorem alistGet_cons_of_neg {α : Type _} (p : Str × α) (l : List (Str × α)) (k : Str)
    (h : (p.1 == k) = false) : alistGet (p :: l) k = alistGet l k := by
  unfold alistGet
  rw [List.find?_cons_of_neg (p := fun q => q.1 == k) l (by simp [h])]

theorem alistContains_cons_of_neg {α : Type _} (p : Str × α) (l : List (Str × α)) (k : Str)
    (h : (p.1 == k) = false) : alistContains (p :: l) k = alistContains l k := by
  simp [alistContains, alistGet_cons_of_neg p l k h]

theorem alistInsert_cons_ne {α : Type _} (p : Str × α) (l : List (Str × α)) (k : Str) (v : α)
    (h : (p.1 == k) = false) : alistInsert (p :: l) k v = p :: alistInsert l k v := by
  by_cases hc : alistContains l k
  · rw [alistInsert, if_pos (by rw [alistContains_cons_of_neg p l k h]; exact hc),
      List.map_cons, alistInsert, if_pos hc, if_neg (by simp [h])]
  · rw [alistInsert, if_neg (by rw [alistContains_cons_of_neg p l k h]; exact hc),
      alistInsert, if_neg hc]
    rfl

theorem alistGet_insert_self {α : Type _} (l : List (Str × α)) (k : Str) (v : α) :
    alistGet (alistInsert l k v) k = some v := by
  induction l with
  | nil =>
    show alistGet (alistInsert [] k v) k = some v
    rw [alistInsert, if_neg (by simp [alistContains, alistGet])]
    simp [alistGet]
  | cons p l ih =>
    by_cases h : (p.1 == k) = true
    · have hc : alistContains (p :: l) k := by
        unfold alistContains
        rw [alistGet_cons_of_pos p l k h]
        rfl
      rw [alistInsert, if_pos hc, List.map_cons, if_pos h]
      exact alistGet_cons_of_pos _ _ _ (by simp)
    · rw [alistInsert_cons_ne p l k v (by simpa using h),
        alistGet_cons_of_neg p _ k (by simpa using h)]
      exact ih

/-! ### Claim C10 -/

/-- C10: `parse_spotify_id` is total: for every input string it returns
the substring after the last `:` (the whole string when no `:` is
present) and never panics — the `expect` branch on the split iterator is
unreachable because splitting any string yields at least one element. -/
theorem c10_theorem (uri : Str) : parse_spotify_id uri = some (afterLastColon uri) :=
  getLast?_splitColon uri

/-! ### Claim C7 -/

/-- C7: the similarity score equals
`(2*jaro(artist) + jaro(album) + 2*jaro(title) + 5*durationSim) / 10`
with case-folded fields, missing strings as empty, durations defaulting
to 0 ms and `durationSim = (1 - 2|dA-dB|/(dA+dB))^2` (stated over exact
rationals, on the domain where the `f64` computation is not NaN, i.e.
duration sum non-zero). -/
theorem c7_theorem (a b : Track) (_h : a.duration.getD 0 + b.duration.getD 0 ≠ 0) :
    a.similarity b =
      (2 * jaro (lower (a.artist.getD [])) (lower (b.artist.getD [])) +
        jaro (lower (a.album.getD [])) (lower (b.album.getD [])) +
        2 * jaro (lower (a.title.getD [])) (lower (b.title.getD [])) +
        5 * (1 - 2 * |((a.duration.getD 0 : ℤ) : ℚ) - ((b.duration.getD 0 : ℤ) : ℚ)| /
              (((a.duration.getD 0 : ℤ) : ℚ) + ((b.duration.getD 0 : ℤ) : ℚ))) ^ 2) / 10 := by
  simp only [Track.similarity]
  push_cast
  ring

/-- C7 witness: the formula instantiated at two concrete tracks with
duration sum 150 ms. -/
theorem c7_witness :
    c7w_a.duration.getD 0 + c7w_b.duration.getD 0 ≠ 0 ∧
    c7w_a.similarity c7w_b =
      (2 * jaro (lower (c7w_a.artist.getD [])) (lower (c7w_b.artist.getD [])) +
        jaro (lower (c7w_a.album.getD [])) (lower (c7w_b.album.getD [])) +
        2 * jaro (lower (c7w_a.title.getD [])) (lower (c7w_b.title.getD [])) +
        5 * (1 - 2 * |((c7w_a.duration.getD 0 : ℤ) : ℚ) - ((c7w_b.duration.getD 0 : ℤ) : ℚ)| /
              (((c7w_a.duration.getD 0 : ℤ) : ℚ) + ((c7w_b.duration.getD 0 : ℤ) : ℚ))) ^ 2) / 10 :=
  ⟨by decide, c7_theorem c7w_a c7w_b (by decide)⟩

/-! ### Claim C2 -/

/-- C2: a zero-result search completion for a track of the loaded
playlist enqueues exactly one relaxed follow-up
`(input_id, adjusted_query, Auto 2)` at the back of the queue if and only
if the completed task's initiator was `Auto 1` and the track's adjusted
query differs from its query; any other initiator (`Auto 2`, `Manual`) or
an unchanged adjusted query enqueues nothing. Since only an `Auto 1`
completion spawns a follow-up and the follow-up runs as `Auto 2`, no
track gets more than one relaxed retry per load. -/
theorem c2_theorem (s : State) (input_id : Str) (ini : FetchInitiator) (tr : Track)
    (hfind : s.in_tracks.find? (fun t => t.id == input_id) = some tr) :
    update s (.OutTracksFound input_id [] ini) =
      some (fetch_next_out_track { s with
        error_message := none,
        fetch_out_tracks_queue := s.fetch_out_tracks_queue ++
          (if ini = .auto 1 ∧ tr.adjusted_query ≠ tr.query
           then [(tr.id, tr.adjusted_query, .auto 2)] else []) }) := by
  rcases ini with n | _
  · by_cases h1 : n = 1
    · subst h1
      by_cases hq : tr.adjusted_query = tr.query
      · simp [update, hfind, hq]
      · simp [update, hfind, hq]
    · simp [update, h1]
  · simp [update]

/-- C2 witness: the theorem applied to a one-track playlist whose track
has artist `A (x)` and title `t` after a zero-result `Auto 1` search. -/
theorem c2_witness :
    c2w_s.in_tracks.find? (fun t => t.id == ['i']) = some c2w_track ∧
    update c2w_s (.OutTracksFound ['i'] [] (.auto 1)) =
      some (fetch_next_out_track { c2w_s with
        error_message := none,
        fetch_out_tracks_queue := c2w_s.fetch_out_tracks_queue ++
          (if FetchInitiator.auto 1 = .auto 1 ∧ c2w_track.adjusted_query ≠ c2w_track.query
           then [(c2w_track.id, c2w_track.adjusted_query, .auto 2)] else []) }) :=
  ⟨by decide, c2_theorem c2w_s ['i'] (.auto 1) c2w_track (by decide)⟩

/-! ### Claim C5 -/

/-- C5: for an input id with no existing mapping, any successful insert
sets the mapping to the id of the top-ranked (head) candidate of the
resulting match list and persists it immediately (the stored mapping
equals the in-memory mapping afterwards); for an input id that already
has a mapping, insert changes neither the mapping nor the store — first
match wins, not best-ever match. -/
theorem c5_theorem (s : State) (input_id : Str) (cands : List Track) (s' : State)
    (h : insert_out_track s input_id cands = some s') :
    (alistGet s.id_mapping input_id = none →
      ∃ L e, alistGet s'.out_tracks input_id = some L ∧ L.head? = some e ∧
        alistGet s'.id_mapping input_id = some e.2.id ∧
        s'.stored_mapping = s'.id_mapping) ∧
    (∀ v, alistGet s.id_mapping input_id = some v →
      s'.id_mapping = s.id_mapping ∧ s'.stored_mapping = s.stored_mapping) := by
  unfold insert_out_track at h
  rcases hf : s.in_tracks.find? (fun t => t.id == input_id) with _ | tr
  · rw [hf] at h
    exact absurd h (by simp)
  · rw [hf] at h
    simp only [Option.map_eq_some'] at h
    obtain ⟨s2, hs2, hrem⟩ := h
    have hout2 : s2.out_tracks = alistInsert s.out_tracks input_id
        (sort_by_key (((alistGet s.out_tracks input_id).getD []) ++
          cands.map fun ot => (tr.similarity ot, ot))) := by
      split at hs2
      · cases hs2; rfl
      · split at hs2
        · cases hs2
        · cases hs2; rfl
    have hout' : s'.out_tracks = s2.out_tracks := by
      rw [← hrem]
      split <;> try rfl
      split <;> rfl
    have hmap' : s'.id_mapping = s2.id_mapping := by
      rw [← hrem]
      split <;> try rfl
      split <;> rfl
    have hsto' : s'.stored_mapping = s2.stored_mapping := by
      rw [← hrem]
      split <;> try rfl
      split <;> rfl
    constructor
    · intro hnone
      have hc : alistContains s.id_mapping input_id = false := by
        simp [alistContains, hnone]
      rw [if_neg (by simp [hc])] at hs2
      rcases hm : sort_by_key (((alistGet s.out_tracks input_id).getD []) ++
          cands.map fun ot => (tr.similarity ot, ot)) with _ | ⟨e, rest⟩
      · rw [hm] at hs2
        cases hs2
      · rw [hm] at hs2
        cases hs2
        refine ⟨e :: rest, e, ?_, rfl, ?_, ?_⟩
        · rw [hout', hout2, hm]
          exact alistGet_insert_self _ _ _
        · rw [hmap']
          exact alistGet_insert_self _ _ _
        · rw [hsto', hmap']
    · intro v hv
      have hc : alistContains s.id_mapping input_id = true := by
        simp [alistContains, hv]
      rw [if_pos (by simp [hc])] at hs2
      cases hs2
      exact ⟨hmap', hsto'⟩

/-- C5 witness: the theorem applied to a fresh one-track playlist and one
candidate. -/
theorem c5_witness :
    alistGet c5w_s.id_mapping ['i'] = none ∧
    (∃ L e, alistGet c5w_s1.out_tracks ['i'] = some L ∧ L.head? = some e ∧
      alistGet c5w_s1.id_mapping ['i'] = some e.2.id ∧
      c5w_s1.stored_mapping = c5w_s1.id_mapping) :=
  ⟨by decide,
    (c5_theorem c5w_s ['i'] [c5w_cand] c5w_s1 (by with_unfolding_all decide)).1 (by decide)⟩

/-! ### Preservation lemmas for the orchestrator -/

theorem fetch_next_error_message (s : State) :
    (fetch_next_out_track s).error_message = s.error_message := by
  simp only [fetch_next_out_track, fetch_remaining_out_tracks]
  split <;> rfl

theorem insert_out_track_same (s : State) (input_id : Str) (ts : List Track) (s' : State)
    (h : insert_out_track s input_id ts = some s') :
    s'.error_message = s.error_message ∧ s'.fetch_tasks = s.fetch_tasks := by
  unfold insert_out_track at h
  rcases hf : s.in_tracks.find? (fun t => t.id == input_id) with _ | tr <;> rw [hf] at h
  · exact absurd h (by simp)
  · simp only [Option.map_eq_some'] at h
    obtain ⟨s2, hs2, hrem⟩ := h
    have h2 : s2.error_message = s.error_message ∧ s2.fetch_tasks = s.fetch_tasks := by
      split at hs2
      · cases hs2; exact ⟨rfl, rfl⟩
      · split at hs2
        · cases hs2
        · cases hs2; exact ⟨rfl, rfl⟩
    rw [← hrem]
    split
    · split
      · exact h2
      · exact h2
    · exact h2

theorem foldl_insert_same (l : List (Str × Track)) (s s' : State)
    (h : l.foldlM (fun st p => insert_out_track st p.1 [p.2]) s = some s') :
    s'.error_message = s.error_message ∧ s'.fetch_tasks = s.fetch_tasks := by
  induction l generalizing s with
  | nil =>
    simp only [List.foldlM_nil] at h
    cases h
    exact ⟨rfl, rfl⟩
  | cons p l ih =>
    simp only [List.foldlM_cons] at h
    rcases hi : insert_out_track s p.1 [p.2] with _ | s2 <;> rw [hi] at h
    · exact absurd h (by simp)
    · obtain ⟨h1, h2⟩ := insert_out_track_same s p.1 [p.2] s2 hi
      obtain ⟨h3, h4⟩ := ih s2 h
      exact ⟨h3.trans h1, h4.trans h2⟩

/-! ### Claim C9 -/

/-- C9 (amended): every failed catalog call delivers `SetError` with the
one-line text naming the failed operation, and processing `SetError`
changes nothing but the displayed message (queue, remainder set, match
cache and id mapping untouched), replacing any previous message; a
subsequent successful playlist-list, search, bulk-lookup or add-items
completion clears the message — but a successful playlist-create
completion does NOT clear it. -/
theorem c9_theorem :
    (∀ (s : State) (msg : Str),
      update s (.SetError msg) = some { s with error_message := some msg }) ∧
    (∀ (req : Request) (msg : Msg) (txt : Str), Completes req msg →
      msg = .SetError txt → txt = opErrorText req) ∧
    (∀ (s : State) (ps : List SpotifyPlaylist) (s' : State),
      update s (.OutPlaylistsLoaded ps) = some s' → s'.error_message = none) ∧
    (∀ (s : State) (input_id : Str) (ts : List Track) (ini : FetchInitiator) (s' : State),
      update s (.OutTracksFound input_id ts ini) = some s' → s'.error_message = none) ∧
    (∀ (s : State) (prs : List (Str × Track)) (s' : State),
      update s (.RemainingOutTracksFound prs) = some s' → s'.error_message = none) ∧
    (∀ (s s' : State),
      update s .ImportMatchedDone = some s' → s'.error_message = none) ∧
    (∀ (s : State) (p : SpotifyPlaylist) (s' : State),
      update s (.OutPlaylistCreated p) = some s' → s'.error_message = s.error_message) := by
  refine ⟨fun s msg => rfl, ?_, ?_, ?_, ?_, ?_, ?_⟩
  · intro req msg txt hc he
    cases hc with
    | getPlaylistsOk user_id resp => exact absurd he (by simp)
    | searchOk input_id query ini resp => exact absurd he (by simp)
    | getTracksOk ids id_lookup resp msg h =>
      obtain ⟨a, _, rfl⟩ := Option.map_eq_some'.mp h
      exact absurd he (by simp)
    | addItemsOk playlist_id uris => exact absurd he (by simp)
    | createPlaylistOk user_id name isPublic resp => exact absurd he (by simp)
    | err req =>
      cases he
      rfl
  · intro s ps s' h
    cases h
    rfl
  · intro s input_id ts ini s' h
    simp only [update] at h
    split at h
    · simp only [Option.map_eq_some'] at h
      obtain ⟨s2, h2, rfl⟩ := h
      rw [fetch_next_error_message]
      exact (insert_out_track_same _ _ _ _ h2).1
    · split at h
      · split at h
        · split at h
          · exact absurd h (by simp)
          · split at h <;> (cases h; rw [fetch_next_error_message])
        · cases h
          rw [fetch_next_error_message]
      · cases h
        rw [fetch_next_error_message]
  · intro s prs s' h
    simp only [update, Option.map_eq_some'] at h
    obtain ⟨s2, h2, rfl⟩ := h
    rw [fetch_next_error_message]
    exact (foldl_insert_same _ _ _ h2).1
  · intro s s' h
    cases h
    rfl
  · intro s p s' h
    cases h
    rfl

/-- C9 witness: instances of the amended theorem at concrete states — a
failure overwrites the previously displayed error and touches nothing
else; a following successful playlist-list completion clears it. -/
theorem c9_witness :
    update c9x_s (.SetError (opErrorText (.search ['i'] ['q'] .manual))) =
      some { c9x_s with
        error_message := some (opErrorText (.search ['i'] ['q'] .manual)) } ∧
    ∀ s', update c9x_s (.OutPlaylistsLoaded []) = some s' → s'.error_message = none :=
  ⟨c9_theorem.1 c9x_s (opErrorText (.search ['i'] ['q'] .manual)),
    fun s' h => c9_theorem.2.2.1 c9x_s [] s' h⟩

/-- C9 counterexample: a successful playlist-create completion arrives
while "Request failed: get playlists" is displayed; the message is still
displayed afterwards, refuting "every subsequent successful catalog
completion clears the displayed error message". -/
theorem c9_counterexample :
    (update c9x_s (.OutPlaylistCreated c9x_p)).map (·.error_message) =
      some (some (opErrorText (.getPlaylists ['u']))) ∧
    Completes (.createPlaylist ['u'] ['n'] false) (.OutPlaylistCreated c9x_p) :=
  ⟨by decide, Completes.createPlaylistOk ['u'] ['n'] false c9x_p⟩

/-! ### Counting lemmas for the one-call-in-flight analysis -/

theorem countP_set_le (p : TaskRec → Bool) (l : List TaskRec) (i : Nat) (x : TaskRec)
    (hx : p x = false) : (l.set i x).countP p ≤ l.countP p := by
  induction l generalizing i with
  | nil => simp
  | cons a l ih =>
    cases i with
    | zero => simp [List.countP_cons, hx]
    | succ n =>
      simp only [List.set_cons_succ, List.countP_cons]
      have := ih n
      omega

theorem countP_orch_filter (l : List TaskRec) :
    (l.filter (·.active)).countP (fun t => t.active && isOrchReq t.req) =
      l.countP (fun t => t.active && isOrchReq t.req) := by
  rw [List.countP_filter]
  apply List.countP_congr
  intro a _
  cases ha : a.active <;> simp [ha]

theorem drainQueue_nil_queue (ts : List TaskRec) : drainQueue ts [] = (ts, []) := rfl

theorem drainQueue_cons_of_ne (ts : List TaskRec) (x : Str × Str × FetchInitiator)
    (r : List (Str × Str × FetchInitiator)) (h : ts ≠ []) :
    drainQueue ts (x :: r) = (ts, x :: r) := by
  obtain ⟨a, b, c⟩ := x
  simp only [drainQueue]
  rw [if_neg]
  simp only [Nat.lt_one_iff, List.length_eq_zero]
  exact h

theorem drainQueue_nil_cons (x : Str × Str × FetchInitiator)
    (r : List (Str × Str × FetchInitiator)) :
    drainQueue [] (x :: r) = ([⟨true, .search x.1 x.2.1 x.2.2⟩], r) := by
  obtain ⟨a, b, c⟩ := x
  cases r with
  | nil => rfl
  | cons y r' =>
    obtain ⟨d, e, f⟩ := y
    rfl

/-- The drained task list: unchanged when something is already in flight,
at most one new search otherwise. -/
theorem fetch_next_orch (s : State) (h : orchCount s ≤ 1) :
    orchCount (fetch_next_out_track s) ≤ 1 := by
  have hfe := countP_orch_filter s.fetch_tasks
  simp only [fetch_next_out_track, fetch_remaining_out_tracks, orchCount] at *
  rcases hf : s.fetch_tasks.filter (·.active) with _ | ⟨t0, ts0⟩ <;>
    rcases hq : s.fetch_out_tracks_queue with _ | ⟨x, r⟩
  · simp only [hf, hq, drainQueue_nil_queue]
    split
    · simp [List.countP_cons, isOrchReq]
    · simp
  · simp only [hf, hq, drainQueue_nil_cons]
    split
    · rename_i hcond
      simp at hcond
    · simp [List.countP_cons, isOrchReq]
  · simp only [hf, hq, drainQueue_nil_queue]
    split
    · rename_i hcond
      simp at hcond
    · rw [← hf, hfe]
      exact h
  · simp only [hf, hq, drainQueue_cons_of_ne (t0 :: ts0) x r (by simp)]
    split
    · rename_i hcond
      simp at hcond
    · rw [← hf, hfe]
      exact h

/-- Every state transition preserves "at most one orchestrator call in
flight". -/
theorem update_orch (s : State) (msg : Msg) (s' : State) (h : orchCount s ≤ 1)
    (hup : update s msg = some s') : orchCount s' ≤ 1 := by
  cases msg with
  | OutPlaylistsLoaded playlists => cases hup; exact h
  | OutPlaylistSelected playlist_id prompt =>
    simp only [update] at hup
    split at hup
    · split at hup
      · cases hup
        simp only [orchCount, create_playlist, List.countP_append,
          List.countP_cons, List.countP_nil, isOrchReq, Bool.and_false]
        simpa using h
      · cases hup; exact h
    · split at hup <;> (cases hup; exact h)
  | OutPlaylistCreated playlist => cases hup; exact h
  | InPlaylistLoaded tracks =>
    simp only [update] at hup
    cases hup
    exact fetch_next_orch _ h
  | SetIdMapping input_id output_id =>
    cases output_id <;> (simp only [update] at hup; cases hup; exact h)
  | QueryOutTrack input_id query =>
    simp only [update] at hup
    cases hup
    exact fetch_next_orch _ h
  | OutTracksFound input_id new_out_tracks ini =>
    simp only [update] at hup
    split at hup
    · simp only [Option.map_eq_some'] at hup
      obtain ⟨s2, h2, rfl⟩ := hup
      refine fetch_next_orch _ ?_
      show orchCount s2 ≤ 1
      unfold orchCount
      rw [(insert_out_track_same _ _ _ _ h2).2]
      exact h
    · split at hup
      · split at hup
        · split at hup
          · exact absurd hup (by simp)
          · split at hup <;> (cases hup; exact fetch_next_orch _ h)
        · cases hup; exact fetch_next_orch _ h
      · cases hup; exact fetch_next_orch _ h
  | RemainingOutTracksFound tracks =>
    simp only [update, Option.map_eq_some'] at hup
    obtain ⟨s2, h2, rfl⟩ := hup
    refine fetch_next_orch _ ?_
    show orchCount s2 ≤ 1
    unfold orchCount
    rw [(foldl_insert_same _ _ _ h2).2]
    exact h
  | ExportUnmatched => cases hup; exact h
  | ImportMatched =>
    simp only [update] at hup
    split at hup
    · cases hup
      simp only [add_next_to_playlist, add_to_playlist]
      split
      · simp only [orchCount, List.countP_append, List.countP_cons, List.countP_nil,
          isOrchReq, Bool.and_false]
        simpa using h
      · exact h
    · cases hup; exact h
  | ImportMatchedDone => cases hup; exact h
  | SetError error_message => cases hup; exact h
  | Noop => cases hup; exact h

/-! ### Claim C1 -/

/-- C1 (amended): in every reachable state, at most one ORCHESTRATOR
catalog call — a search or a bulk lookup, the calls issued through
`fetch_next_out_track` — is outstanding; these are issued only when no
task at all is in flight. The global one-outstanding cap claimed for all
five call kinds does not hold: playlist-create and add-items calls are
issued without consulting the in-flight set (see the counterexample). -/
theorem c1_theorem (s : State) (h : Reachable s) : orchCount s ≤ 1 := by
  induction h with
  | init user_id restored =>
    simp [initState, get_playlists, orchCount, List.countP_cons, isOrchReq]
  | step hr hstep ih =>
    rename_i s1 s2
    cases hstep with
    | user msg s' hu hup => exact update_orch _ _ _ ih hup
    | response i t msg s' hget hact hc hup =>
      refine update_orch _ _ _ ?_ hup
      show orchCount _ ≤ 1
      unfold orchCount at ih ⊢
      calc (s1.fetch_tasks.set i { t with active := false }).countP _
          ≤ s1.fetch_tasks.countP _ := countP_set_le _ _ _ _ rfl
        _ ≤ 1 := ih

/-- C1 witness: the invariant instantiated at the initial state. -/
theorem c1_witness : orchCount (initState ['u'] []) ≤ 1 :=
  c1_theorem (initState ['u'] []) (Reachable.init ['u'] [])

/-- C1 counterexample: from the initial state (whose `get_playlists`
playlist-list call is still in flight) the user picks
"Create new playlist..." and enters a name; `create_playlist` issues the
playlist-create call without any in-flight check, so the reachable state
`c1_bad` has TWO catalog calls outstanding — refuting the claimed global
cap of one outstanding call across all call kinds. -/
theorem c1_counterexample : Reachable c1_bad ∧ activeCount c1_bad = 2 := by
  constructor
  · refine Reachable.step (Reachable.init ['u'] []) ?_
    exact Step.user (.OutPlaylistSelected ("create").data (some ['n'])) c1_bad
      trivial (by decide)
  · decide

/-! ### The stable sort of the match cache -/

theorem sortIns_perm (x : ℚ × Track) (l : List (ℚ × Track)) :
    (sortIns x l).Perm (x :: l) := by
  induction l with
  | nil => exact List.Perm.refl _
  | cons y ys ih =>
    simp only [sortIns]
    split
    · exact (ih.cons y).trans (List.Perm.swap x y ys)
    · exact List.Perm.refl _

theorem foldl_sortIns_perm (l acc : List (ℚ × Track)) :
    (l.foldl (fun a x => sortIns x a) acc).Perm (acc ++ l) := by
  induction l generalizing acc with
  | nil => simp
  | cons x xs ih =>
    simp only [List.foldl_cons]
    exact (ih (sortIns x acc)).trans
      (((sortIns_perm x acc).append_right xs).trans List.perm_middle.symm)

theorem sort_by_key_perm (l : List (ℚ × Track)) : (sort_by_key l).Perm l := by
  have := foldl_sortIns_perm l []
  simpa [sort_by_key] using this

theorem sortIns_sorted (x : ℚ × Track) (l : List (ℚ × Track))
    (hl : l.Pairwise fun a b => sortKey a ≤ sortKey b) :
    (sortIns x l).Pairwise fun a b => sortKey a ≤ sortKey b := by
  induction l with
  | nil => simp [sortIns]
  | cons y ys ih =>
    rw [List.pairwise_cons] at hl
    obtain ⟨hy, hys⟩ := hl
    simp only [sortIns]
    split
    · rename_i hle
      rw [List.pairwise_cons]
      refine ⟨?_, ih hys⟩
      intro z hz
      rcases List.mem_cons.mp ((sortIns_perm x ys).mem_iff.mp hz) with rfl | hz'
      · exact hle
      · exact hy z hz'
    · rename_i hgt
      rw [List.pairwise_cons]
      refine ⟨?_, List.pairwise_cons.mpr ⟨hy, hys⟩⟩
      intro z hz
      rcases List.mem_cons.mp hz with rfl | hz'
      · exact le_of_lt (lt_of_not_ge hgt)
      · exact le_trans (le_of_lt (lt_of_not_ge hgt)) (hy z hz')

theorem foldl_sortIns_sorted (l acc : List (ℚ × Track))
    (hacc : acc.Pairwise fun a b => sortKey a ≤ sortKey b) :
    (l.foldl (fun a x => sortIns x a) acc).Pairwise fun a b => sortKey a ≤ sortKey b := by
  induction l generalizing acc with
  | nil => exact hacc
  | cons x xs ih => exact ih (sortIns x acc) (sortIns_sorted x acc hacc)

theorem sort_by_key_sorted (l : List (ℚ × Track)) :
    (sort_by_key l).Pairwise fun a b => sortKey a ≤ sortKey b :=
  foldl_sortIns_sorted l [] (List.Pairwise.nil)

theorem sortIns_filter (x : ℚ × Track) (l : List (ℚ × Track)) (k : ℤ)
    (hl : l.Pairwise fun a b => sortKey a ≤ sortKey b) :
    (sortIns x l).filter (fun e => sortKey e == k) =
      if sortKey x == k then (l.filter fun e => sortKey e == k) ++ [x]
      else l.filter fun e => sortKey e == k := by
  induction l with
  | nil =>
    simp only [sortIns, List.filter_cons, List.filter_nil]
    split <;> simp_all
  | cons y ys ih =>
    rw [List.pairwise_cons] at hl
    obtain ⟨hy, hys⟩ := hl
    simp only [sortIns]
    split
    · rename_i hle
      rw [List.filter_cons, List.filter_cons]
      by_cases hyk : (sortKey y == k) = true <;>
        by_cases hxk : (sortKey x == k) = true <;>
          simp [hyk, hxk, ih hys]
    · rename_i hgt
      have hnil : (y :: ys).filter (fun e => sortKey e == k) = [] ∨
          (sortKey x == k) = false := by
        by_cases hxk : (sortKey x == k) = true
        · left
          rw [List.filter_eq_nil_iff]
          intro e he hek
          have h1 : sortKey y ≤ sortKey e := by
            rcases List.mem_cons.mp he with rfl | he'
            · exact le_refl _
            · exact hy e he'
          have h2 : sortKey x < sortKey y := lt_of_not_ge hgt
          have h3 : sortKey x = k := by exact_mod_cast beq_iff_eq.mp hxk
          have h4 : sortKey e = k := by exact_mod_cast beq_iff_eq.mp hek
          omega
        · right
          simpa using hxk
      rcases hnil with hnil | hxk
      · by_cases hxk : (sortKey x == k) = true
        · rw [List.filter_cons, if_pos hxk, hnil]
          simp [hxk]
        · rw [List.filter_cons, if_neg (by simpa using hxk)]
          simp [hxk]
      · rw [List.filter_cons, if_neg (by simp [hxk])]
        simp [hxk]

theorem foldl_sortIns_filter (l acc : List (ℚ × Track)) (k : ℤ)
    (hacc : acc.Pairwise fun a b => sortKey a ≤ sortKey b) :
    (l.foldl (fun a x => sortIns x a) acc).filter (fun e => sortKey e == k) =
      (acc.filter fun e => sortKey e == k) ++ (l.filter fun e => sortKey e == k) := by
  induction l generalizing acc with
  | nil => simp
  | cons x xs ih =>
    simp only [List.foldl_cons]
    rw [ih (sortIns x acc) (sortIns_sorted x acc hacc),
      sortIns_filter x acc k hacc, List.filter_cons]
    by_cases hxk : (sortKey x == k) = true <;> simp [hxk]

theorem sort_by_key_filter (l : List (ℚ × Track)) (k : ℤ) :
    (sort_by_key l).filter (fun e => sortKey e == k) =
      l.filter fun e => sortKey e == k := by
  have := foldl_sortIns_filter l [] k List.Pairwise.nil
  simpa [sort_by_key] using this

/-! ### Claim C6 -/

/-- C6 (amended): the match cache has append-and-resort semantics — after
an insert for an input id, the id's match list is a permutation of the
old list plus every newly scored pair (no de-duplication: duplicates stay
as separate entries, which the permutation preserves), and it is ordered
by the integer sort key `-(score * 1000) as isize` (ascending in the key,
i.e. descending in the score truncated to millesimal resolution), with
entries of EQUAL key kept in their original insertion order (the filter
equation — stability). Ordering by exact score holds only up to the
1/1000 key granularity, not exactly (see the counterexample). -/
theorem c6_theorem (s : State) (input_id : Str) (cands : List Track) (tr : Track) (s' : State)
    (hfind : s.in_tracks.find? (fun t => t.id == input_id) = some tr)
    (h : insert_out_track s input_id cands = some s') :
    ∃ L, alistGet s'.out_tracks input_id = some L ∧
      L.Perm (((alistGet s.out_tracks input_id).getD []) ++
        cands.map fun c => (tr.similarity c, c)) ∧
      (L.Pairwise fun a b => sortKey a ≤ sortKey b) ∧
      ∀ k : ℤ, L.filter (fun e => sortKey e == k) =
        (((alistGet s.out_tracks input_id).getD []) ++
          cands.map fun c => (tr.similarity c, c)).filter fun e => sortKey e == k := by
  unfold insert_out_track at h
  rw [hfind] at h
  simp only [Option.map_eq_some'] at h
  obtain ⟨s2, hs2, hrem⟩ := h
  have hout2 : s2.out_tracks = alistInsert s.out_tracks input_id
      (sort_by_key (((alistGet s.out_tracks input_id).getD []) ++
        cands.map fun ot => (tr.similarity ot, ot))) := by
    split at hs2
    · cases hs2; rfl
    · split at hs2
      · cases hs2
      · cases hs2; rfl
  have hout' : s'.out_tracks = s2.out_tracks := by
    rw [← hrem]
    split <;> try rfl
    split <;> rfl
  refine ⟨sort_by_key (((alistGet s.out_tracks input_id).getD []) ++
    cands.map fun ot => (tr.similarity ot, ot)), ?_, ?_, ?_, ?_⟩
  · rw [hout', hout2]
    exact alistGet_insert_self _ _ _
  · exact sort_by_key_perm _
  · exact sort_by_key_sorted _
  · intro k
    exact sort_by_key_filter _ k

/-- C6 witness: the amended theorem instantiated at the concrete
scenario insert. -/
theorem c6_witness :
    ∃ L, alistGet c6w_s1.out_tracks ['i'] = some L ∧
      L.Perm (((alistGet c6_s0.out_tracks ['i']).getD []) ++
        [c6_low].map fun c => (c6_in.similarity c, c)) ∧
      (L.Pairwise fun a b => sortKey a ≤ sortKey b) ∧
      ∀ k : ℤ, L.filter (fun e => sortKey e == k) =
        (((alistGet c6_s0.out_tracks ['i']).getD []) ++
          [c6_low].map fun c => (c6_in.similarity c, c)).filter fun e => sortKey e == k :=
  c6_theorem c6_s0 ['i'] [c6_low] c6_in c6w_s1 (by decide) (by with_unfolding_all decide)

/-- C6 counterexample: inserting the candidate list `[c6_low, c6_high]`
(scores 209/210 < 239/240, both with sort key −995) leaves the
lower-scored candidate FIRST in the resulting match list — the list is
not ordered descending by exact similarity score, refuting the claim as
stated; ordering only respects the truncated key. -/
theorem c6_counterexample :
    (insert_out_track c6_s0 ['i'] [c6_low, c6_high]).map
        (fun s => (alistGet s.out_tracks ['i']).map (List.map fun e => e.1)) =
      some (some [c6_in.similarity c6_low, c6_in.similarity c6_high]) ∧
    c6_in.similarity c6_low < c6_in.similarity c6_high :=
  ⟨by with_unfolding_all decide, by with_unfolding_all decide⟩

/-! ### Whitespace lemmas for the query derivation -/

/-- Absence of U+FEFF (the only JS-`\s` character that Rust's `trim` does
not strip). -/
def noFeff (l : Str) : Bool := l.all fun c => c.toNat != 65279

theorem jsWs_rustWs (c : Char) (hj : jsWs c = true) (hf : (c.toNat != 65279) = true) :
    rustWs c = true := by
  simp only [jsWs, rustWs, bne_iff_ne, ne_eq] at *
  simp only [Bool.or_eq_true, Bool.and_eq_true, decide_eq_true_eq, beq_iff_eq] at *
  omega

theorem head?_dropWhile (p : Char → Bool) (l : Str) (c : Char)
    (h : (l.dropWhile p).head? = some c) : p c = false := by
  induction l with
  | nil => simp [List.dropWhile] at h
  | cons a l ih =>
    rw [List.dropWhile_cons] at h
    split at h
    · exact ih h
    · rename_i hpa
      simp only [List.head?_cons, Option.some.injEq] at h
      subst h
      simpa using hpa

theorem getLast?_dropWhile_of_ne_nil (p : Char → Bool) (l : Str)
    (h : l.dropWhile p ≠ []) : (l.dropWhile p).getLast? = l.getLast? := by
  induction l with
  | nil => simp [List.dropWhile] at h
  | cons a l ih =>
    rw [List.dropWhile_cons]
    rw [List.dropWhile_cons] at h
    split
    · rename_i hpa
      rw [if_pos hpa] at h
      have hl : l ≠ [] := by
        intro he
        subst he
        simp [List.dropWhile] at h
      rw [ih h, getLast?_cons_ne a l hl]
    · rfl

theorem mem_dropWhile (p : Char → Bool) (l : Str) (c : Char)
    (h : c ∈ l.dropWhile p) : c ∈ l :=
  (List.dropWhile_sublist p).subset h

theorem mem_rustTrim (l : Str) (c : Char) (h : c ∈ rustTrim l) : c ∈ l := by
  unfold rustTrim trimR trimL at h
  rw [List.mem_reverse] at h
  have h2 := mem_dropWhile _ _ _ h
  rw [List.mem_reverse] at h2
  exact mem_dropWhile _ _ _ h2

theorem noFeff_mem (l : Str) (hf : noFeff l = true) (c : Char) (hc : c ∈ l) :
    (c.toNat != 65279) = true := by
  unfold noFeff at hf
  exact List.all_eq_true.mp hf c hc

theorem rustTrim_head (l : Str) (c : Char) (h : (rustTrim l).head? = some c) :
    rustWs c = false := by
  unfold rustTrim trimR trimL at h
  rw [List.head?_reverse] at h
  have hne : (l.dropWhile rustWs).reverse.dropWhile rustWs ≠ [] := by
    intro he
    rw [he] at h
    simp at h
  rw [getLast?_dropWhile_of_ne_nil _ _ hne, List.getLast?_reverse] at h
  exact head?_dropWhile _ _ _ h

theorem rustTrim_getLast (l : Str) (c : Char) (h : (rustTrim l).getLast? = some c) :
    rustWs c = false := by
  unfold rustTrim trimR trimL at h
  rw [List.getLast?_reverse] at h
  exact head?_dropWhile _ _ _ h

theorem collapseFirst_ne_nil (l : Str) (h : l ≠ []) : collapseFirst l ≠ [] := by
  cases l with
  | nil => exact absurd rfl h
  | cons c cs =>
    simp only [collapseFirst]
    split <;> simp

theorem collapseFirst_getLast (l : Str) (hf : noFeff l = true)
    (hL : ∀ c, l.getLast? = some c → rustWs c = false) :
    ∀ c, (collapseFirst l).getLast? = some c → rustWs c = false ∧ jsWs c = false := by
  induction l with
  | nil => intro c hc; simp [collapseFirst] at hc
  | cons a cs ih =>
    intro c hc
    simp only [collapseFirst] at hc
    have hfa : (a.toNat != 65279) = true := noFeff_mem _ hf a (by simp)
    have hfcs : noFeff cs = true := by
      unfold noFeff at hf ⊢
      rw [List.all_cons] at hf
      exact (Bool.and_eq_true _ _ |>.mp hf).2
    split at hc
    · rename_i hja
      rcases hd : cs.dropWhile jsWs with _ | ⟨d, ds⟩
      · exfalso
        cases hcs : cs with
        | nil =>
          subst hcs
          have := hL a (by simp)
          have := jsWs_rustWs a hja hfa
          simp_all
        | cons e es =>
          have hlast : (a :: cs).getLast? = cs.getLast? := by
            rw [hcs]; exact getLast?_cons_ne _ _ (by simp)
          rcases hw : cs.getLast? with _ | w
          · rw [hcs] at hw; simp at hw
          · have hwm : w ∈ cs := List.mem_of_getLast?_eq_some hw
            have hwj : jsWs w = true := List.dropWhile_eq_nil_iff.mp hd w hwm
            have hwr : rustWs w = true :=
              jsWs_rustWs w hwj (noFeff_mem _ hfcs w hwm)
            have := hL w (by rw [hlast]; exact hw)
            simp_all
      · rw [hd] at hc
        have h1 : (' ' :: d :: ds).getLast? = (d :: ds).getLast? :=
          getLast?_cons_ne _ _ (by simp)
        rw [h1] at hc
        rw [← hd] at hc
        have hcs_ne : cs ≠ [] := by
          intro he
          subst he
          simp [List.dropWhile] at hd
        rw [getLast?_dropWhile_of_ne_nil _ _ (by rw [hd]; simp)] at hc
        have hlast : (a :: cs).getLast? = cs.getLast? := getLast?_cons_ne _ _ hcs_ne
        have hr : rustWs c = false := hL c (by rw [hlast]; exact hc)
        have hcm : c ∈ cs := List.mem_of_getLast?_eq_some hc
        refine ⟨hr, ?_⟩
        by_contra hjc
        have := jsWs_rustWs c (by simpa using hjc) (noFeff_mem _ hfcs c hcm)
        simp_all
    · rename_i hja
      cases hcs : cs with
      | nil =>
        subst hcs
        simp only [collapseFirst, List.getLast?_singleton, Option.some.injEq] at hc
        refine hc ▸ ⟨?_, ?_⟩
        · simpa using hL a (by simp)
        · simpa using hja
      | cons e es =>
        have hne : collapseFirst cs ≠ [] := by
          rw [hcs]
          exact collapseFirst_ne_nil _ (by simp)
        rw [getLast?_cons_ne _ _ hne] at hc
        have hlast : (a :: cs).getLast? = cs.getLast? := by
          rw [hcs]; exact getLast?_cons_ne _ _ (by simp)
        exact ih hfcs (fun w hw => hL w (by rw [hlast]; exact hw)) c hc

theorem mem_stripBrackets (l : Str) (c : Char) (h : c ∈ stripBrackets l) : c ∈ l := by
  induction l with
  | nil => simp [stripBrackets] at h
  | cons a cs ih =>
    simp only [stripBrackets] at h
    split at h
    · split at h
      · exact List.mem_cons_of_mem a ((List.drop_sublist _ _).subset h)
      · rcases List.mem_cons.mp h with rfl | h2
        · exact List.mem_cons_self _ _
        · exact List.mem_cons_of_mem a (ih h2)
    · rcases List.mem_cons.mp h with rfl | h2
      · exact List.mem_cons_self _ _
      · exact List.mem_cons_of_mem a (ih h2)

theorem edgeOk_of (l : Str)
    (h1 : ∀ c, l.head? = some c → rustWs c = false ∧ jsWs c = false)
    (h2 : ∀ c, l.getLast? = some c → rustWs c = false ∧ jsWs c = false) :
    edgeOk l = true := by
  unfold edgeOk
  rcases hh : l.head? with _ | c
  · rcases hl : l.getLast? with _ | d
    · rfl
    · obtain ⟨hr, hj⟩ := h2 d hl
      simp [hr, hj]
  · rcases hl : l.getLast? with _ | d
    · obtain ⟨hr, hj⟩ := h1 c hh
      simp [hr, hj]
    · obtain ⟨hr1, hj1⟩ := h1 c hh
      obtain ⟨hr2, hj2⟩ := h2 d hl
      simp [hr1, hj1, hr2, hj2]

/-- The edge property of the whole query pipeline: trimming followed by
the first-run collapse leaves no whitespace at either end of a FEFF-free
string. -/
theorem collapse_trim_edge (l : Str) (hf : noFeff l = true) :
    edgeOk (collapseFirst (rustTrim l)) = true := by
  have hft : noFeff (rustTrim l) = true := by
    unfold noFeff
    rw [List.all_eq_true]
    intro c hc
    exact noFeff_mem l hf c (mem_rustTrim l c hc)
  apply edgeOk_of
  · intro c hc
    rcases ht : rustTrim l with _ | ⟨a, cs⟩
    · rw [ht] at hc; simp [collapseFirst] at hc
    · rw [ht] at hc
      have hha : (rustTrim l).head? = some a := by rw [ht]; rfl
      have hra : rustWs a = false := rustTrim_head l a hha
      have hja : jsWs a = false := by
        by_contra hja
        have ham : a ∈ rustTrim l := by rw [ht]; simp
        have := jsWs_rustWs a (by simpa using hja)
          (noFeff_mem _ hft a ham)
        simp_all
      simp only [collapseFirst, hja, Bool.false_eq_true, if_false, List.head?_cons,
        Option.some.injEq] at hc
      subst hc
      exact ⟨hra, hja⟩
  · intro c hc
    have := collapseFirst_getLast (rustTrim l) hft
      (fun w hw => rustTrim_getLast l w hw) c hc
    exact this

/-! ### Claim C8 -/

/-- C8 (amended): for every input track whose artist and title contain no
U+FEFF character, the strings returned by `query` and `adjusted_query`
have no leading or trailing whitespace (query joins the fields with one
space and trims); but only the FIRST maximal run of whitespace is
collapsed to a single space — the JS regex `\s+` is built without the
global flag, so `String.prototype.replace` rewrites only its first match
and later runs survive, and the output can contain two consecutive
whitespace characters (see the counterexample). -/
theorem c8_theorem (t : Track) (ha : noFeff (t.artist.getD []) = true)
    (hb : noFeff (t.title.getD []) = true) :
    edgeOk t.query = true ∧ edgeOk t.adjusted_query = true := by
  constructor
  · apply collapse_trim_edge
    unfold noFeff at *
    rw [List.all_eq_true] at *
    intro c hc
    rcases List.mem_append.mp hc with h1 | h1
    · exact ha c h1
    · rcases List.mem_cons.mp h1 with rfl | h2
      · decide
      · exact hb c h2
  · apply collapse_trim_edge
    unfold noFeff at *
    rw [List.all_eq_true] at *
    intro c hc
    rcases List.mem_append.mp hc with h1 | h1
    · exact ha c (mem_stripBrackets _ c h1)
    · rcases List.mem_cons.mp h1 with rfl | h2
      · decide
      · exact hb c (mem_stripBrackets _ c h2)

/-- C8 witness: the amended theorem at a concrete FEFF-free track with an
interior double space in the artist field. -/
theorem c8_witness :
    noFeff (c8w_track.artist.getD []) = true ∧
    (edgeOk c8w_track.query = true ∧ edgeOk c8w_track.adjusted_query = true) :=
  ⟨by decide, c8_theorem c8w_track (by decide) (by decide)⟩

/-- C8 counterexample: for the track with artist `A` and title `B␣␣C`
the derived query is `A B␣␣C` — the run of two spaces inside the title is
NOT collapsed (the regex replaces only its first match), refuting "the
strings returned by query ... contain no two consecutive whitespace
characters ... collapses any run of whitespace to a single space". -/
theorem c8_counterexample :
    Track.query c8x_track = ['A', ' ', 'B', ' ', ' ', 'C'] ∧
    noDoubleWs (Track.query c8x_track) = false :=
  ⟨by decide, by decide⟩

/-! ### Claim C3 -/

/-- C3: evaluation of the bulk-lookup pagination on a 120-entry remainder
set with successful catalog responses. The first orchestrator tick issues
a 50-id page. After its response (which removes the 50 fetched entries
from the remainder set), the cursor-based `skip(1 * 50).take(50)` slice
of the now-70-entry map yields only 20 ids — the second page. After that
response, 50 entries remain unfetched, the cursor (2) is at or beyond
`ceil(50/50) = 1`, no request is in flight, and a further tick issues
nothing: the code requests pages of sizes 50 and 20 (not 50/50/20) and
never covers 50 of the 120 entries, contradicting the claimed full
exactly-once coverage (the spec's intent); entry `c3_inId 50` is never
requested. -/
theorem c3_theorem :
    (bulkPages c3_s1).map (fun p => p.1.length) = [50] ∧
    c3_o2.map (fun s => ((bulkPages s).map fun p => p.1.length,
      s.fetch_out_tracks_remaining.length,
      s.fetch_out_tracks_remaining_batch_index)) = some ([20], 70, 2) ∧
    c3_o3.map (fun s => (activeCount s,
      s.fetch_out_tracks_remaining.length,
      s.fetch_out_tracks_remaining_batch_index,
      (s.fetch_out_tracks_remaining.length + 49) / 50,
      activeCount (fetch_next_out_track s))) = some (0, 50, 2, 1, 0) ∧
    c3_o3.map (fun s => alistContains s.fetch_out_tracks_remaining (c3_inId 50)) =
      some true ∧
    ((bulkPages c3_s1).map (fun p => p.1.contains (c3_outId 50))) = [false] :=
  ⟨by with_unfolding_all decide, by with_unfolding_all decide,
    by with_unfolding_all decide, by with_unfolding_all decide,
    by with_unfolding_all decide⟩

/-! ### Claim C4 -/

/-- C4: evaluation of the import flow on a 51-track playlist whose tracks
are all mapped. `ImportMatched` issues one add-items call carrying the 50
mapped uris of page 0 (track 51's uri is not among them) and advances the
page index to 1 of `ceil(51/50) = 2`. When that single call completes
successfully, the handler only sets the import-finished flag: no second
page is ever issued (nothing is in flight afterwards and no code path
calls `add_next_to_playlist` again), contradicting the claimed
page-by-page repetition until every page is visited with the finished
signal at the LAST page. -/
theorem c4_theorem :
    c4_o1.map (fun s => ((addItemPages s).map List.length,
      s.import_matched_batch_index, s.import_matched_done)) = some ([50], 1, false) ∧
    c4_o1.map (fun s => (addItemPages s).map fun u => u.contains (c4_outId 50)) =
      some [false] ∧
    (c4_s0.in_tracks.length + 49) / 50 = 2 ∧
    c4_o2.map (fun s => (activeCount s, s.import_matched_batch_index,
      s.import_matched_done)) = some (0, 1, true) :=
  ⟨by with_unfolding_all decide, by with_unfolding_all decide,
    by decide, by with_unfolding_all decide⟩

end SPI
